import Mathlib

/-!
Verification of the `RingBuffer` template class from
`src/blatt07/include/ringbuffer/ringbuffer.h`.

The C++ class `RingBuffer<T, size, alloc_t>` stores pointers to elements in a
dynamically allocated array `elems` of `size` slots, with bookkeeping fields
`count` (number of stored elements) and `head` (index of the oldest element).
We embed the state as a structure over an abstract element type `α` (a slot
holds the pointer value stored there; stale slots simply hold whatever value
they last had, exactly as in the C++ array).  The allocator's `deallocate`
calls are modelled by returning the list of released elements alongside the
new state.
-/

namespace RingBufferSpec

/-- State of a `RingBuffer<T, size, alloc_t>` object: the fields `count`,
`head` and the backing array `elems` (modelled as a total function from slot
index to stored value; only indices below `size` are ever used). -/
structure RingBuffer (α : Type) where
  count : Nat
  head : Nat
  elems : Nat → α

/-- Constructor `RingBuffer()`: initialises `count = 0`, `head = 0` and lets
`elems` point to a fresh array of `size` slots whose contents are
unspecified (here: given by an arbitrary initial assignment `init`). -/
def mkRingBuffer {α : Type} (init : Nat → α) : RingBuffer α :=
  { count := 0, head := 0, elems := init }

/-- Method `readBuffer()`: returns `nullptr` (modelled as `none`) when
`count == 0` and leaves the state unchanged; otherwise captures
`elems[head]`, decrements `count`, advances `head` (with the explicit
wrap-around test `head + 1 == size` from the source) and returns the
captured element.  No element is released. -/
def readBuffer {α : Type} (size : Nat) (b : RingBuffer α) :
    Option α × RingBuffer α :=
  if b.count = 0 then
    (none, b)
  else
    (some (b.elems b.head),
      { b with
        count := b.count - 1,
        head := if b.head + 1 = size then 0 else b.head + 1 })

/-- Method `writeBuffer(T *data)`: when `count == size` it deallocates
`elems[head]` and stores `data` in that slot (leaving `count` and `head`
unchanged, exactly as in the source); otherwise it stores `data` at slot
`(head + count) % size` and increments `count`.  The second component is
the list of elements released through `m_allocator.deallocate`. -/
def writeBuffer {α : Type} (size : Nat) (data : α) (b : RingBuffer α) :
    RingBuffer α × List α :=
  if b.count = size then
    ({ b with elems := Function.update b.elems b.head data },
      [b.elems b.head])
  else
    ({ b with
        elems := Function.update b.elems ((b.head + b.count) % size) data,
        count := b.count + 1 },
      [])

/-- The element-release loop of the destructor `~RingBuffer()`:
`for(int i = head; count > 0; count--)` releases `elems[i]` and advances
`i` with the explicit wrap-around test `i == size - 1` from the source.
Returns the list of released elements in release order. -/
def destructorLoop {α : Type} (size : Nat) (elems : Nat → α) :
    Nat → Nat → List α
  | _, 0 => []
  | i, c + 1 =>
      elems i :: destructorLoop size elems (if i = size - 1 then 0 else i + 1) c

/-- The elements released by the destructor `~RingBuffer()`: none when
`count == 0`, otherwise the ones visited by the loop starting at `head`
and running `count` steps. -/
def destructorReleases {α : Type} (size : Nat) (b : RingBuffer α) : List α :=
  if b.count = 0 then [] else destructorLoop size b.elems b.head b.count

/-- An operation on the buffer: a `readBuffer()` call or a
`writeBuffer(data)` call. -/
inductive Op (α : Type) where
  | read : Op α
  | write : α → Op α

/-- The state transition of a single operation (discarding the returned
element / released elements). -/
def step {α : Type} (size : Nat) (b : RingBuffer α) : Op α → RingBuffer α
  | Op.read => (readBuffer size b).2
  | Op.write a => (writeBuffer size a b).1

/-- Running a sequence of operations from a given state. -/
def run {α : Type} (size : Nat) (ops : List (Op α)) (b : RingBuffer α) :
    RingBuffer α :=
  ops.foldl (step size) b

/-- Writing a whole list of elements, one `writeBuffer` call per element. -/
def writeAll {α : Type} (size : Nat) (b : RingBuffer α) (ws : List α) :
    RingBuffer α :=
  ws.foldl (fun s w => (writeBuffer size w s).1) b

/-- Performing `n` successive `readBuffer` calls, collecting the returned
results in order. -/
def readN {α : Type} (size : Nat) : Nat → RingBuffer α → List (Option α) × RingBuffer α
  | 0, b => ([], b)
  | n + 1, b =>
      let p := readBuffer size b
      let q := readN size n p.2
      (p.1 :: q.1, q.2)

/-- The logical window of a buffer: the stored values at slots
`(head + i) % size` for `0 ≤ i < c`, oldest first. -/
def window {α : Type} (size : Nat) (elems : Nat → α) (hd c : Nat) : List α :=
  (List.range c).map (fun i => elems ((hd + i) % size))

/-- The explicit wrap-around test of the source
(`if((head+1) == size){ head = 0; } else { head = head + 1; }`) computes
`(i + 1) % size` whenever `i < size`. -/
lemma wrap_eq_mod {size i : Nat} (hi : i < size) :
    (if i + 1 = size then 0 else i + 1) = (i + 1) % size := by
  by_cases hc : i + 1 = size
  · simp [hc, Nat.mod_self]
  · have hlt : i + 1 < size := lt_of_le_of_ne (Nat.succ_le_of_lt hi) hc
    simp [hc, Nat.mod_eq_of_lt hlt]

/-- Residues `(a + i) % size` are distinct for distinct offsets `i < size`. -/
lemma add_mod_inj {size a i j : Nat} (hi : i < size) (hj : j < size)
    (h : (a + i) % size = (a + j) % size) : i = j := by
  have h2 : i ≡ j [MOD size] := Nat.ModEq.add_left_cancel' a h
  rwa [Nat.ModEq, Nat.mod_eq_of_lt hi, Nat.mod_eq_of_lt hj] at h2

lemma window_zero {α : Type} (size : Nat) (elems : Nat → α) (hd : Nat) :
    window size elems hd 0 = [] := rfl

/-- Peeling the oldest element off a window. -/
lemma window_succ_cons {α : Type} (size : Nat) (elems : Nat → α) (hd c : Nat) :
    window size elems hd (c + 1)
      = elems (hd % size) :: window size elems ((hd + 1) % size) c := by
  unfold window
  rw [List.range_succ_eq_map, List.map_cons, List.map_map]
  refine congrArg₂ List.cons (by rw [Nat.add_zero]) ?_
  refine congrArg (fun f => List.map f (List.range c)) ?_
  funext i
  have h1 : ((hd + 1) % size + i) % size = (hd + 1 + i) % size :=
    Nat.mod_add_mod (hd + 1) size i
  have h2 : hd + 1 + i = hd + Nat.succ i := by omega
  simp [Function.comp, h1, h2]

/-- Peeling the newest element off a window. -/
lemma window_succ_append {α : Type} (size : Nat) (elems : Nat → α) (hd c : Nat) :
    window size elems hd (c + 1)
      = window size elems hd c ++ [elems ((hd + c) % size)] := by
  unfold window
  rw [List.range_succ, List.map_append, List.map_cons, List.map_nil]

/-- Updating the slot just past a window of length `c < size` does not change
the window contents. -/
lemma window_update {α : Type} (size : Nat) (elems : Nat → α) (hd c : Nat)
    (w : α) (hc : c < size) :
    window size (Function.update elems ((hd + c) % size) w) hd c
      = window size elems hd c := by
  unfold window
  refine List.map_congr_left ?_
  intro i hi
  have hi2 : i < c := List.mem_range.mp hi
  have hne : (hd + i) % size ≠ (hd + c) % size := by
    intro h
    exact absurd (add_mod_inj (lt_trans hi2 hc) hc h) (Nat.ne_of_lt hi2)
  exact Function.update_noteq hne w elems

/-- Unfolding `writeBuffer` in the not-full case. -/
lemma writeBuffer_of_not_full {α : Type} (size : Nat) (w : α)
    (b : RingBuffer α) (h : b.count < size) :
    writeBuffer size w b
      = ({ b with
            elems := Function.update b.elems ((b.head + b.count) % size) w,
            count := b.count + 1 }, []) := by
  unfold writeBuffer
  rw [if_neg (Nat.ne_of_lt h)]

/-- Unfolding `readBuffer` in the non-empty case, with the wrap-around test
rewritten as a modulus. -/
lemma readBuffer_of_pos {α : Type} (size : Nat) (b : RingBuffer α)
    (hc : 0 < b.count) (hh : b.head < size) :
    readBuffer size b
      = (some (b.elems b.head),
          { count := b.count - 1, head := (b.head + 1) % size,
            elems := b.elems }) := by
  unfold readBuffer
  rw [if_neg (Nat.pos_iff_ne_zero.mp hc), wrap_eq_mod hh]

/-- Effect of `writeAll` on a buffer whose window still has room for all the
written elements: `count` grows by the number of writes, `head` and the old
window keep their places, and the new elements are appended to the window. -/
lemma writeAll_window {α : Type} (size : Nat) :
    ∀ (ws : List α) (b : RingBuffer α), b.head < size →
      b.count + ws.length ≤ size →
      (writeAll size b ws).count = b.count + ws.length ∧
      (writeAll size b ws).head = b.head ∧
      window size (writeAll size b ws).elems (writeAll size b ws).head
          (writeAll size b ws).count
        = window size b.elems b.head b.count ++ ws := by
  intro ws
  induction ws with
  | nil =>
      intro b hh hc
      simp [writeAll]
  | cons w ws ih =>
      intro b hh hc
      have hlt : b.count < size := by
        simp only [List.length_cons] at hc
        omega
      have hstep : writeAll size b (w :: ws)
          = writeAll size (writeBuffer size w b).1 ws := rfl
      rw [hstep, writeBuffer_of_not_full size w b hlt]
      have hc2 : b.count + 1 + ws.length ≤ size := by
        simp only [List.length_cons] at hc
        omega
      obtain ⟨h1, h2, h3⟩ := ih
        { b with
          elems := Function.update b.elems ((b.head + b.count) % size) w,
          count := b.count + 1 } hh hc2
      refine ⟨by simpa [List.length_cons, Nat.add_assoc, Nat.add_comm 1] using h1,
        h2, ?_⟩
      rw [h3]
      have hwin :
          window size (Function.update b.elems ((b.head + b.count) % size) w)
              b.head (b.count + 1)
            = window size b.elems b.head b.count ++ [w] := by
        rw [window_succ_append, window_update size b.elems b.head b.count w hlt,
          Function.update_same]
      rw [hwin, List.append_assoc, List.singleton_append]

/-- Effect of `n ≤ count` successive `readBuffer` calls: the first `n`
window elements come out in order, `count` drops by `n`, `head` advances by
`n` modulo `size`, and the array is untouched. -/
lemma readN_window {α : Type} (size : Nat) (hs : 0 < size) :
    ∀ (n : Nat) (b : RingBuffer α), b.head < size → n ≤ b.count →
      readN size n b
        = ((window size b.elems b.head n).map some,
            { count := b.count - n, head := (b.head + n) % size,
              elems := b.elems }) := by
  intro n
  induction n with
  | zero =>
      intro b hh _
      simp [readN, window_zero, Nat.mod_eq_of_lt hh]
  | succ n ih =>
      intro b hh hc
      have hc0 : 0 < b.count := by omega
      have hread := readBuffer_of_pos size b hc0 hh
      have hh2 : (b.head + 1) % size < size := Nat.mod_lt _ hs
      have hc2 : n ≤ b.count - 1 := by omega
      have hrec := ih
        { count := b.count - 1, head := (b.head + 1) % size,
          elems := b.elems } hh2 hc2
      show (let p := readBuffer size b
            let q := readN size n p.2
            (p.1 :: q.1, q.2))
          = ((window size b.elems b.head (n + 1)).map some,
              { count := b.count - (n + 1), head := (b.head + (n + 1)) % size,
                elems := b.elems })
      rw [hread]
      simp only []
      rw [hrec]
      rw [window_succ_cons, Nat.mod_eq_of_lt hh, List.map_cons]
      have hhead : ((b.head + 1) % size + n) % size = (b.head + (n + 1)) % size := by
        rw [Nat.mod_add_mod]
        have : b.head + 1 + n = b.head + (n + 1) := by omega
        rw [this]
      have hcount : b.count - 1 - n = b.count - (n + 1) := by omega
      rw [hhead, hcount]

/-- The destructor's release loop visits exactly the logical window: starting
at `i = hd < size` it releases `elems[(hd + k) % size]` for `k = 0, …, c-1`. -/
lemma destructorLoop_eq_window {α : Type} (size : Nat) (elems : Nat → α)
    (hs : 0 < size) :
    ∀ (c hd : Nat), hd < size →
      destructorLoop size elems hd c = window size elems hd c := by
  intro c
  induction c with
  | zero =>
      intro hd _
      rfl
  | succ c ih =>
      intro hd hh
      have hadv : (if hd = size - 1 then 0 else hd + 1) = (hd + 1) % size := by
        by_cases hc : hd = size - 1
        · rw [if_pos hc]
          have h1 : hd + 1 = size := by omega
          rw [h1, Nat.mod_self]
        · rw [if_neg hc]
          have h1 : hd + 1 < size := by omega
          rw [Nat.mod_eq_of_lt h1]
      show elems hd :: destructorLoop size elems
            (if hd = size - 1 then 0 else hd + 1) c
          = window size elems hd (c + 1)
      rw [hadv, ih ((hd + 1) % size) (Nat.mod_lt _ hs), window_succ_cons,
        Nat.mod_eq_of_lt hh]

/-- The bookkeeping invariant: `count ≤ size` and `head < size`
(both fields are `size_t`, so non-negativity is implicit). -/
def Inv {α : Type} (size : Nat) (b : RingBuffer α) : Prop :=
  b.count ≤ size ∧ b.head < size

/-- A single `readBuffer` or `writeBuffer` call preserves the bookkeeping
invariant. -/
lemma inv_step {α : Type} (size : Nat) (b : RingBuffer α) (op : Op α)
    (h : Inv size b) : Inv size (step size b op) := by
  obtain ⟨hc, hh⟩ := h
  cases op with
  | read =>
      show Inv size (readBuffer size b).2
      unfold readBuffer
      by_cases h0 : b.count = 0
      · rw [if_pos h0]
        exact ⟨hc, hh⟩
      · rw [if_neg h0]
        refine ⟨?_, ?_⟩
        · show b.count - 1 ≤ size
          omega
        · show (if b.head + 1 = size then 0 else b.head + 1) < size
          by_cases hw : b.head + 1 = size
          · rw [if_pos hw]
            omega
          · rw [if_neg hw]
            omega
  | write a =>
      show Inv size (writeBuffer size a b).1
      unfold writeBuffer
      by_cases hf : b.count = size
      · rw [if_pos hf]
        exact ⟨hc, hh⟩
      · rw [if_neg hf]
        refine ⟨?_, hh⟩
        show b.count + 1 ≤ size
        omega

/-- Any sequence of operations preserves the bookkeeping invariant. -/
lemma inv_run {α : Type} (size : Nat) :
    ∀ (ops : List (Op α)) (b : RingBuffer α), Inv size b →
      Inv size (run size ops b) := by
  intro ops
  induction ops with
  | nil =>
      intro b h
      exact h
  | cons op ops ih =>
      intro b h
      exact ih (step size b op) (inv_step size b op h)

/-- Claim C5: for every buffer state with `count == 0`, a call to
`readBuffer` returns the null sentinel (`none`) and leaves the entire
buffer state (head, count, storage) unchanged. -/
theorem read_empty {α : Type} (size : Nat) (b : RingBuffer α)
    (h : b.count = 0) : readBuffer size b = (none, b) := by
  unfold readBuffer
  rw [if_pos h]

/-- Witness for C5: reading a freshly constructed buffer of size 3 returns
the sentinel and the unchanged buffer. -/
theorem read_empty_witness :
    readBuffer 3 (mkRingBuffer (fun _ => (0 : Nat)))
      = (none, mkRingBuffer (fun _ => (0 : Nat))) :=
  read_empty 3 (mkRingBuffer (fun _ => (0 : Nat))) rfl

/-- Claim C7: for every buffer state with `count > 0` (and `head` in
bounds), `readBuffer` returns the element stored at slot `head`, sets
`head` to `(head + 1) % size`, decrements `count` by one, and leaves the
storage array untouched (no release operation exists in `readBuffer`). -/
theorem read_nonempty_spec {α : Type} (size : Nat) (b : RingBuffer α)
    (hc : 0 < b.count) (hh : b.head < size) :
    readBuffer size b
      = (some (b.elems b.head),
          { count := b.count - 1, head := (b.head + 1) % size,
            elems := b.elems }) :=
  readBuffer_of_pos size b hc hh

/-- Witness for C7: reading a one-element buffer of size 2 returns the
element at slot 0 and advances `head` to 1. -/
theorem read_nonempty_spec_witness :
    readBuffer 2 (⟨1, 0, fun _ => (42 : Nat)⟩ : RingBuffer Nat)
      = (some 42, ⟨0, 1, fun _ => (42 : Nat)⟩) :=
  read_nonempty_spec 2 ⟨1, 0, fun _ => (42 : Nat)⟩ (by decide) (by decide)

/-- Claim C6: for every buffer state with `count < size`, `writeBuffer`
stores the element at slot `(head + count) % size` (displacing no other
slot, which the `Function.update` equation expresses), increments `count`,
leaves `head` unchanged, and releases nothing. -/
theorem write_not_full_spec {α : Type} (size : Nat) (w : α)
    (b : RingBuffer α) (h : b.count < size) :
    (writeBuffer size w b).1.elems
        = Function.update b.elems ((b.head + b.count) % size) w ∧
    (writeBuffer size w b).1.count = b.count + 1 ∧
    (writeBuffer size w b).1.head = b.head ∧
    (writeBuffer size w b).2 = [] := by
  rw [writeBuffer_of_not_full size w b h]
  exact ⟨rfl, rfl, rfl, rfl⟩

/-- Witness for C6: writing 5 into a fresh buffer of size 2 stores it at
slot 0, sets `count` to 1 and releases nothing. -/
theorem write_not_full_spec_witness :
    (writeBuffer 2 5 (mkRingBuffer (fun _ => (0 : Nat)))).1.elems
        = Function.update (fun _ => (0 : Nat)) 0 5 ∧
    (writeBuffer 2 5 (mkRingBuffer (fun _ => (0 : Nat)))).1.count = 1 ∧
    (writeBuffer 2 5 (mkRingBuffer (fun _ => (0 : Nat)))).1.head = 0 ∧
    (writeBuffer 2 5 (mkRingBuffer (fun _ => (0 : Nat)))).2 = [] :=
  write_not_full_spec 2 5 (mkRingBuffer (fun _ => (0 : Nat))) (by decide)

/-- Claim C9 (implicit): `writeBuffer` leaves the `head` field unchanged in
both branches, full and not full. -/
theorem write_keeps_head {α : Type} (size : Nat) (w : α)
    (b : RingBuffer α) : (writeBuffer size w b).1.head = b.head := by
  unfold writeBuffer
  by_cases h : b.count = size
  · rw [if_pos h]
  · rw [if_neg h]

/-- Claim C10 (implicit): on a full buffer, a `writeBuffer` call followed
immediately by `readBuffer` yields exactly the element just written,
because the full-buffer branch stores the new element at slot `head`
without advancing `head`. -/
theorem full_write_read_back {α : Type} (size : Nat) (w : α)
    (b : RingBuffer α) (hc : b.count = size) (hs : 0 < size) :
    (readBuffer size (writeBuffer size w b).1).1 = some w := by
  unfold writeBuffer
  rw [if_pos hc]
  unfold readBuffer
  have h0 : ¬ ({ b with elems := Function.update b.elems b.head w }
      : RingBuffer α).count = 0 := by
    show ¬ b.count = 0
    omega
  rw [if_neg h0]
  show some (Function.update b.elems b.head w b.head) = some w
  rw [Function.update_same]

/-- Witness for C10: writing 7 into a full buffer of size 1 and reading
immediately returns 7. -/
theorem full_write_read_back_witness :
    (readBuffer 1 (writeBuffer 1 7
        (⟨1, 0, fun _ => (0 : Nat)⟩ : RingBuffer Nat)).1).1 = some 7 :=
  full_write_read_back 1 7 ⟨1, 0, fun _ => (0 : Nat)⟩ rfl (by decide)

/-- Claim C3: for any list of at most `size` elements written into a fresh
buffer, reading that many times returns the elements in write order, and
the buffer is empty (`count = 0`) afterwards. -/
theorem fifo_roundtrip {α : Type} (size : Nat) (init : Nat → α)
    (ws : List α) (hs : 0 < size) (hlen : ws.length ≤ size) :
    (readN size ws.length (writeAll size (mkRingBuffer init) ws)).1
        = ws.map some ∧
    (readN size ws.length (writeAll size (mkRingBuffer init) ws)).2.count
        = 0 := by
  have hh0 : (mkRingBuffer init : RingBuffer α).head < size := hs
  have hc0 : (mkRingBuffer init : RingBuffer α).count + ws.length ≤ size := by
    show 0 + ws.length ≤ size
    omega
  obtain ⟨h1, h2, h3⟩ := writeAll_window size ws (mkRingBuffer init) hh0 hc0
  have h1' : (writeAll size (mkRingBuffer init) ws).count = ws.length := by
    rw [h1]
    show 0 + ws.length = ws.length
    omega
  have hh1 : (writeAll size (mkRingBuffer init) ws).head < size := by
    rw [h2]
    exact hs
  have hr := readN_window size hs ws.length
    (writeAll size (mkRingBuffer init) ws) hh1 (le_of_eq h1'.symm)
  rw [hr]
  have hw : window size (writeAll size (mkRingBuffer init) ws).elems
      (writeAll size (mkRingBuffer init) ws).head ws.length = ws := by
    rw [← h1', h3]
    show window size init 0 0 ++ ws = ws
    rw [window_zero, List.nil_append]
  rw [hw]
  refine ⟨rfl, ?_⟩
  show (writeAll size (mkRingBuffer init) ws).count - ws.length = 0
  omega

/-- Witness for C3: writing 1, 2, 3 into a fresh buffer of size 3 and
reading three times yields 1, 2, 3 and leaves `count = 0`. -/
theorem fifo_roundtrip_witness :
    (readN 3 3 (writeAll 3 (mkRingBuffer (fun _ => (0 : Nat))) [1, 2, 3])).1
        = [1, 2, 3].map some ∧
    (readN 3 3 (writeAll 3 (mkRingBuffer (fun _ => (0 : Nat)))
        [1, 2, 3])).2.count = 0 :=
  fifo_roundtrip 3 (fun _ => (0 : Nat)) [1, 2, 3] (by decide) (by decide)

/-- Claim C4: starting from construction, every sequence of `readBuffer`
and `writeBuffer` calls keeps `count ≤ size` and `head < size`
(non-negativity is implicit in the `size_t` fields, modelled by `Nat`);
the empty sequence covers the state right after construction. -/
theorem bounds_after_any_ops {α : Type} (size : Nat) (init : Nat → α)
    (ops : List (Op α)) (hs : 0 < size) :
    (run size ops (mkRingBuffer init)).count ≤ size ∧
    (run size ops (mkRingBuffer init)).head < size :=
  inv_run size ops (mkRingBuffer init) ⟨Nat.zero_le size, hs⟩

/-- Witness for C4: a sequence of three writes and a read on a buffer of
size 2 keeps the bounds. -/
theorem bounds_after_any_ops_witness :
    (run 2 [Op.write 5, Op.write 6, Op.write 7, Op.read]
        (mkRingBuffer (fun _ => (0 : Nat)))).count ≤ 2 ∧
    (run 2 [Op.write 5, Op.write 6, Op.write 7, Op.read]
        (mkRingBuffer (fun _ => (0 : Nat)))).head < 2 :=
  bounds_after_any_ops 2 (fun _ => (0 : Nat))
    [Op.write 5, Op.write 6, Op.write 7, Op.read] (by decide)

/-- Claim C8: for every buffer state (with `head` in bounds), the
destructor releases exactly the elements of the logical window
`{(head + i) % size : 0 ≤ i < count}`, in window order, hence exactly
`count` many releases and none outside the window; with `count = 0` the
window is empty, so nothing is released. -/
theorem destructor_release_spec {α : Type} (size : Nat) (b : RingBuffer α)
    (hs : 0 < size) (hh : b.head < size) :
    destructorReleases size b = window size b.elems b.head b.count ∧
    (destructorReleases size b).length = b.count := by
  have hmain : destructorReleases size b
      = window size b.elems b.head b.count := by
    unfold destructorReleases
    by_cases h0 : b.count = 0
    · rw [if_pos h0, h0, window_zero]
    · rw [if_neg h0]
      exact destructorLoop_eq_window size b.elems hs b.count b.head hh
  refine ⟨hmain, ?_⟩
  rw [hmain]
  unfold window
  rw [List.length_map, List.length_range]

/-- Witness for C8: destroying a buffer of size 3 holding 2 elements with
`head = 2` releases exactly the window (slots 2 and 0, exercising the
wrap-around). -/
theorem destructor_release_spec_witness :
    destructorReleases 3 (⟨2, 2, fun i => i⟩ : RingBuffer Nat)
        = window 3 (fun i => i) 2 2 ∧
    (destructorReleases 3 (⟨2, 2, fun i => i⟩ : RingBuffer Nat)).length
        = 2 :=
  destructor_release_spec 3 ⟨2, 2, fun i => i⟩ (by decide) (by decide)

/-- Claim C1 (divergence of the code from the claim): on the full buffer
`size = 2`, `count = 2`, `head = 0`, `elems = [10, 11]`, `writeBuffer 99`
does release the element at slot `head` (namely 10), stores 99 in that
slot and keeps `count = 2`, but it leaves `head = 0` instead of advancing
it to `(head + 1) % 2 = 1` as the claim requires. -/
theorem full_write_head_not_advanced :
    (writeBuffer 2 99 (⟨2, 0, fun i => i + 10⟩ : RingBuffer Nat)).1.head
        = 0 ∧
    (writeBuffer 2 99 (⟨2, 0, fun i => i + 10⟩ : RingBuffer Nat)).2
        = [10] ∧
    (writeBuffer 2 99 (⟨2, 0, fun i => i + 10⟩ : RingBuffer Nat)).1.elems 0
        = 99 ∧
    (writeBuffer 2 99 (⟨2, 0, fun i => i + 10⟩ : RingBuffer Nat)).1.count
        = 2 ∧
    ((⟨2, 0, fun i => i + 10⟩ : RingBuffer Nat).head + 1) % 2 = 1 := by
  refine ⟨?_, ?_, ?_, ?_, ?_⟩ <;> decide

/-- Claim C2 (divergence of the code from the claim): with `size = 3`,
writing 1, 2, 3, 4 into a fresh buffer does release 1 (the oldest), but
the three subsequent reads return 4, 2, 3 — the newly written element
comes out first, because the full-buffer write did not advance `head` —
and not 2, 3, 4 as the claim requires. -/
theorem overwrite_order_diverges :
    (writeBuffer 3 4
        (writeAll 3 (mkRingBuffer (fun _ => (0 : Nat))) [1, 2, 3])).2
      = [1] ∧
    (readN 3 3 (writeAll 3 (mkRingBuffer (fun _ => (0 : Nat)))
        [1, 2, 3, 4])).1
      = [some 4, some 2, some 3] ∧
    ([some 4, some 2, some 3] : List (Option Nat))
      ≠ [some 2, some 3, some 4] := by
  refine ⟨?_, ?_, ?_⟩ <;> decide

end RingBufferSpec
